import Mathlib

set_option maxRecDepth 100000

/-!
# Verification of the stock-signal-bot core

Shallow embedding of the signal-aggregation and threshold-optimization engine of the
repository (`src/backtester.py`, `src/signal_generator.py`, constants from `src/config.py`),
together with theorems settling the frozen claims about it.

Modelling conventions:
* Python floats are modelled as `ℚ` (all the arithmetic involved is exact on the
  inputs of interest; `round(x*0.05, 2)` on the sweep grid is exact in `ℚ`).
* Python ints counting articles/signals are modelled as `ℕ`.
* Python dicts keyed by strings are modelled as association lists `List (String × _)`;
  `dict.get(k, d)` becomes `(l.lookup k).getD d`.
* `datetime` values only ever reach the core as `strftime("%Y-%m-%d")` strings, so a
  published timestamp is modelled directly by its date string.
* Network collaborators (`collect_historical_news`, `analyze_sentiment`,
  `fetch_price_data`) are modelled by passing their outputs as parameters: article lists
  arrive already carrying the classifier's `sentiment`/`confidence` fields (possibly
  absent, as in Python where the keys may be missing).
* The mutable module globals `config.BUY_THRESHOLD` / `SELL_THRESHOLD` / `MIN_ARTICLES`
  are modelled by threading an explicit configuration value; `auto_tune`'s in-place
  update becomes a returned configuration.
-/

/-- `SENTIMENT_SCORES.get(label, 0.0)` (`backtester.py` line 29, `signal_generator.py`
line 8): `positive ↦ 1.0`, `negative ↦ -1.0`, `neutral ↦ 0.0`; any other label falls
to the `.get` default `0.0`, which coincides with the `neutral` value. -/
def sentimentScore (s : String) : ℚ :=
  if s = "positive" then 1 else if s = "negative" then -1 else 0

/-! ## Backtester data model (`src/backtester.py`) -/

/-- One entry of the evaluation table built by `build_backtest_table`. -/
structure Row where
  ticker : String
  date : String
  sentiment_score : ℚ
  actual_change_pct : ℚ
  article_count : ℕ
deriving DecidableEq

/-- The dict returned by `evaluate_thresholds` (`backtester.py` lines 207-219). -/
structure EvalResult where
  buy_threshold : ℚ
  sell_threshold : ℚ
  min_articles : ℕ
  accuracy : ℚ
  total_signals : ℕ
  correct : ℕ
  tp_buy : ℕ
  fp_buy : ℕ
  tp_sell : ℕ
  fp_sell : ℕ
  hold_count : ℕ
deriving DecidableEq

/-- The loop counters of `evaluate_thresholds` (`backtester.py` lines 173-178). -/
structure Counts where
  tp_buy : ℕ := 0
  fp_buy : ℕ := 0
  tp_sell : ℕ := 0
  fp_sell : ℕ := 0
  hold_count : ℕ := 0
  total_signals : ℕ := 0
deriving DecidableEq

/-- One iteration of the row loop of `evaluate_thresholds` (`backtester.py` lines 180-202). -/
def evalStep (buy_thresh sell_thresh : ℚ) (min_articles : ℕ) (c : Counts) (row : Row) :
    Counts :=
  if row.article_count < min_articles then
    { c with hold_count := c.hold_count + 1 }
  else if buy_thresh < row.sentiment_score then
    if 0 < row.actual_change_pct then
      { c with total_signals := c.total_signals + 1, tp_buy := c.tp_buy + 1 }
    else
      { c with total_signals := c.total_signals + 1, fp_buy := c.fp_buy + 1 }
  else if row.sentiment_score < sell_thresh then
    if row.actual_change_pct < 0 then
      { c with total_signals := c.total_signals + 1, tp_sell := c.tp_sell + 1 }
    else
      { c with total_signals := c.total_signals + 1, fp_sell := c.fp_sell + 1 }
  else
    { c with hold_count := c.hold_count + 1 }

/-- `evaluate_thresholds` (`backtester.py` lines 167-219). -/
def evaluate_thresholds (table : List Row) (buy_thresh sell_thresh : ℚ) (min_articles : ℕ) :
    EvalResult :=
  let c := table.foldl (evalStep buy_thresh sell_thresh min_articles) {}
  { buy_threshold := buy_thresh
    sell_threshold := sell_thresh
    min_articles := min_articles
    accuracy := if 0 < c.total_signals then ((c.tp_buy + c.tp_sell : ℕ) : ℚ) / c.total_signals else 0
    total_signals := c.total_signals
    correct := c.tp_buy + c.tp_sell
    tp_buy := c.tp_buy
    fp_buy := c.fp_buy
    tp_sell := c.tp_sell
    fp_sell := c.fp_sell
    hold_count := c.hold_count }

/-- `buy_range = [round(x * 0.05, 2) for x in range(1, 13)]` (`backtester.py` line 225);
exact in `ℚ`. -/
def buy_range : List ℚ := (List.range 12).map fun x => ((x + 1 : ℕ) : ℚ) * (5 / 100)

/-- `sell_range = [round(-x * 0.05, 2) for x in range(1, 13)]` (`backtester.py` line 226). -/
def sell_range : List ℚ := (List.range 12).map fun x => -(((x + 1 : ℕ) : ℚ) * (5 / 100))

/-- `min_articles_options = [1, 2, 3, 5]` (`backtester.py` line 227). -/
def min_articles_options : List ℕ := [1, 2, 3, 5]

/-- `sweep_thresholds` (`backtester.py` lines 222-235): the three nested loops, results
appended in loop order (`min_art` outermost, then `bt`, then `st` innermost). -/
def sweep_thresholds (table : List Row) : List EvalResult :=
  min_articles_options.flatMap fun min_art =>
    buy_range.flatMap fun bt =>
      sell_range.map fun st => evaluate_thresholds table bt st min_art

/-! ## Price-change resolver (`compute_next_day_change`) -/

/-- `sorted(keys)` on date strings.  Python's `sorted` is a stable ascending sort; it is
modelled by a (stable) insertion sort, which computes inside the kernel. -/
def sortStringsAsc (l : List String) : List String := l.insertionSort (· ≤ ·)

/-- `compute_next_day_change` (`backtester.py` lines 106-124).  `prices` models the
`{date_str: price}` dict (its keys are distinct in Python); `None` becomes `none`.
The dict accesses `prices[sorted_dates[idx]]` are total in Python because the keys are
exactly the dates; the model uses `lookup`/`getD` defaults that are never hit there. -/
def compute_next_day_change (prices : List (String × ℚ)) (date_str : String) : Option ℚ :=
  let sorted_dates := sortStringsAsc (prices.map Prod.fst)
  let snapped : Option String :=
    if date_str ∈ sorted_dates then some date_str
    else (sorted_dates.filter fun d => decide (date_str ≤ d)).head?
  match snapped with
  | none => none
  | some d =>
    let idx := sorted_dates.indexOf d
    if sorted_dates.length ≤ idx + 1 then none
    else
      let price_today := (prices.lookup (sorted_dates.getD idx "")).getD 0
      let price_next := (prices.lookup (sorted_dates.getD (idx + 1) "")).getD 0
      if price_today = 0 then none
      else some ((price_next - price_today) / price_today * 100)

/-! ## Backtest table builder -/

/-- A historical article as seen by the backtester: ticker, publication date string
(the `published.strftime("%Y-%m-%d")` value), and the classifier's fields, which the
code reads with `art.get("sentiment", "neutral")` and `art.get("confidence", 0.5)`. -/
structure BArticle where
  ticker : String
  date : String
  sentiment : Option String
  confidence : Option ℚ
deriving DecidableEq

/-- `compute_sentiment_score` (`backtester.py` lines 127-136): the weighted average
without any dilution filter. -/
def compute_sentiment_score (articles : List BArticle) : ℚ :=
  let acc := articles.foldl
    (fun (p : ℚ × ℚ) art =>
      let score := sentimentScore (art.sentiment.getD "neutral")
      let conf := art.confidence.getD (1 / 2)
      (p.1 + score * conf, p.2 + conf))
    (0, 0)
  if 0 < acc.2 then acc.1 / acc.2 else 0

/-- `sorted(groups.items())` key order: Python tuple comparison on `(ticker, date)`. -/
def keyPairLe (a b : String × String) : Prop :=
  a.1 < b.1 ∨ (a.1 = b.1 ∧ a.2 ≤ b.2)

instance : DecidableRel keyPairLe := fun a b =>
  inferInstanceAs (Decidable (a.1 < b.1 ∨ (a.1 = b.1 ∧ a.2 ≤ b.2)))

/-- `build_backtest_table` (`backtester.py` lines 139-164).  The `defaultdict` grouping
by `(ticker, date)` is modelled by the list of first occurrences of each key
(`eraseDups`) and, per key, the sublist of articles with that key (Python appends in
input order).  `prices` maps each ticker to its date-price dict. -/
def build_backtest_table (articles : List BArticle)
    (prices : List (String × List (String × ℚ))) : List Row :=
  let keys := (articles.map fun a => (a.ticker, a.date)).eraseDups
  let sortedKeys := keys.insertionSort keyPairLe
  sortedKeys.filterMap fun k =>
    match prices.lookup k.1 with
    | none => none
    | some pm =>
      match compute_next_day_change pm k.2 with
      | none => none
      | some change =>
        let arts := articles.filter fun a => decide (a.ticker = k.1 ∧ a.date = k.2)
        some { ticker := k.1
               date := k.2
               sentiment_score := compute_sentiment_score arts
               actual_change_pct := change
               article_count := arts.length }

/-! ## Sweep selection and auto-tune (`backtester.py` lines 399-454) -/

/-- The live threshold configuration (`config.BUY_THRESHOLD`, `config.SELL_THRESHOLD`,
`config.MIN_ARTICLES`). -/
structure ThresholdConfig where
  buy_threshold : ℚ
  sell_threshold : ℚ
  min_articles : ℕ
deriving DecidableEq

/-- The sort key `lambda r: (r["accuracy"], r["total_signals"])` compared
lexicographically, as Python compares tuples. -/
def resultKey (r : EvalResult) : ℚ ×ₗ ℕ := toLex (r.accuracy, r.total_signals)

/-- The viability filter of `auto_tune` (`backtester.py` lines 426-428): keep results
with at least 3 signals, relaxing to at least 1 if none qualify (`viable = [...]; if not
viable: viable = [...]`). -/
def viableOf (results : List EvalResult) : List EvalResult :=
  if (results.filter fun r => decide (3 ≤ r.total_signals)).isEmpty then
    results.filter fun r => decide (1 ≤ r.total_signals)
  else results.filter fun r => decide (3 ≤ r.total_signals)

/-- Lines 429-434 of `backtester.py`: if the (possibly relaxed) viable list is empty the
caller bails out; otherwise `viable.sort(key=..., reverse=True)` sorts descending by
`(accuracy, total_signals)` and `viable[0]` is taken.  Python's sort is stable and
`reverse=True` keeps elements with equal keys in their original order, so `viable[0]`
is exactly the earliest element of `viable` whose key is maximal; the model selects
that element directly (a fold that replaces the running best only on a strictly
larger key). -/
def selectOptimal (results : List EvalResult) : Option EvalResult :=
  match viableOf results with
  | [] => none
  | x :: xs => some (xs.foldl (fun best r => if resultKey best < resultKey r then r else best) x)

/-- `auto_tune` (`backtester.py` lines 399-454), with the collaborator outputs (scored
articles, price data) passed in and the mutated `config` globals threaded through as a
returned `ThresholdConfig`.  The `bool` is the Python return value. -/
def auto_tune (articles : List BArticle) (prices : List (String × List (String × ℚ)))
    (cfg : ThresholdConfig) : Bool × ThresholdConfig :=
  if articles.isEmpty then (false, cfg) else
  let table := build_backtest_table articles prices
  if table.isEmpty then (false, cfg) else
  let current := evaluate_thresholds table cfg.buy_threshold cfg.sell_threshold cfg.min_articles
  match selectOptimal (sweep_thresholds table) with
  | none => (false, cfg)
  | some optimal =>
    if current.accuracy < optimal.accuracy then
      (true, { buy_threshold := optimal.buy_threshold
               sell_threshold := optimal.sell_threshold
               min_articles := optimal.min_articles })
    else (false, cfg)

/-! ## Signal aggregator (`src/signal_generator.py`) -/

/-- An article as seen by `generate_signals`. -/
structure SArticle where
  ticker : String
  title : String
  sentiment : Option String
  confidence : Option ℚ
deriving DecidableEq

/-- The configuration read from the `config` module by `generate_signals`. -/
structure SigConfig where
  ALL_TICKERS : List String
  BUY_THRESHOLD : ℚ
  SELL_THRESHOLD : ℚ
  MIN_ARTICLES : ℕ
  displayNames : List (String × String)
deriving DecidableEq

/-- The per-asset output dict of `generate_signals` (`signal_generator.py` lines 70-77). -/
structure SignalInfo where
  signal : String
  score : ℚ
  confidence : ℚ
  article_count : ℕ
  top_headline : String
  display_name : String
deriving DecidableEq

/-- Python's `round(q, ndigits)` modelled on `ℚ`.  (Python rounds half-to-even on
floats; the two differ only when `q * 10^ndigits` is an exact odd half-integer, which
never occurs in the claims below.) -/
def roundTo (ndigits : ℕ) (q : ℚ) : ℚ := ((round (q * 10 ^ ndigits) : ℤ) : ℚ) / 10 ^ ndigits

/-- The accumulator of the per-ticker article loop (`signal_generator.py` lines 41-44). -/
structure AggState where
  weighted_sum : ℚ := 0
  weight_total : ℚ := 0
  best_article : Option SArticle := none
  best_confidence : ℚ := 0
deriving DecidableEq

/-- One iteration of the article loop (`signal_generator.py` lines 46-57), including the
dilution filter `if score == 0.0 and conf < 0.7: continue`. -/
def aggStep (st : AggState) (art : SArticle) : AggState :=
  let score := sentimentScore (art.sentiment.getD "neutral")
  let conf := art.confidence.getD (1 / 2)
  if score = 0 ∧ conf < 7 / 10 then st
  else
    let st' := { st with weighted_sum := st.weighted_sum + score * conf
                         weight_total := st.weight_total + conf }
    if st'.best_confidence < conf then
      { st' with best_confidence := conf, best_article := some art }
    else st'

/-- `_empty_signal` (`signal_generator.py` lines 88-96). -/
def emptySignal (cfg : SigConfig) (ticker : String) : SignalInfo :=
  { signal := "HOLD"
    score := 0
    confidence := 0
    article_count := 0
    top_headline := "No recent news"
    display_name := (cfg.displayNames.lookup ticker).getD ticker }

/-- The body of the per-ticker loop of `generate_signals` (`signal_generator.py`
lines 33-77).  `by_ticker.get(ticker, [])` is the order-preserving filter of the input
articles by ticker. -/
def tickerSignal (cfg : SigConfig) (articles : List SArticle) (ticker : String) : SignalInfo :=
  let ticker_articles := articles.filter fun a => a.ticker == ticker
  let count := ticker_articles.length
  if count = 0 then emptySignal cfg ticker
  else
    let st := ticker_articles.foldl aggStep {}
    let avg_score := if 0 < st.weight_total then st.weighted_sum / st.weight_total else 0
    let avg_confidence := if 0 < count then st.weight_total / (count : ℚ) else 0
    let signal :=
      if cfg.BUY_THRESHOLD < avg_score ∧ cfg.MIN_ARTICLES ≤ count then "BUY"
      else if avg_score < cfg.SELL_THRESHOLD ∧ cfg.MIN_ARTICLES ≤ count then "SELL"
      else "HOLD"
    { signal := signal
      score := roundTo 3 avg_score
      confidence := roundTo 1 (avg_confidence * 100)
      article_count := count
      top_headline := ((st.best_article.map fun a => a.title).getD "")
      display_name := (cfg.displayNames.lookup ticker).getD ticker }

/-- `generate_signals` (`signal_generator.py` lines 11-85): one output entry per
configured ticker, in watchlist order. -/
def generate_signals (cfg : SigConfig) (articles : List SArticle) :
    List (String × SignalInfo) :=
  cfg.ALL_TICKERS.map fun t => (t, tickerSignal cfg articles t)

/-! ## Constants from `src/config.py` -/

/-- `config.STOCKS`. -/
def STOCKS : List String :=
  ["AAPL", "MSFT", "GOOG", "AMZN", "TSLA", "NVDA", "META", "JPM", "V", "JNJ"]

/-- `config.COMMODITIES` as (name, ticker) pairs. -/
def COMMODITIES : List (String × String) := [("Gold", "GC=F"), ("Oil", "CL=F"), ("Silver", "SI=F")]

/-- `config.CRYPTO` as (name, ticker) pairs. -/
def CRYPTO : List (String × String) := [("BTC", "BTC-USD"), ("ETH", "ETH-USD")]

/-- `config.ALL_TICKERS = STOCKS + list(COMMODITIES.values()) + list(CRYPTO.values())`. -/
def ALL_TICKERS : List String := STOCKS ++ COMMODITIES.map Prod.snd ++ CRYPTO.map Prod.snd

/-- `config.ASSET_DISPLAY_NAMES` (the merged dict; all keys distinct). -/
def ASSET_DISPLAY_NAMES : List (String × String) :=
  (STOCKS.map fun s => (s, s)) ++ (COMMODITIES.map fun p => (p.2, p.1)) ++
    (CRYPTO.map fun p => (p.2, p.1))

/-- The live `config` threshold values as committed (`config.py` lines 48-50). -/
def defaultSigConfig : SigConfig :=
  { ALL_TICKERS := ALL_TICKERS
    BUY_THRESHOLD := 2 / 10
    SELL_THRESHOLD := -5 / 100
    MIN_ARTICLES := 1
    displayNames := ASSET_DISPLAY_NAMES }

/-! ## Auxiliary definitions for the sweep-selection claims -/

/-- The 576 `(min_articles, buy_threshold, sell_threshold)` triples in the exact order
in which `sweep_thresholds`' nested loops produce them. -/
def sweepGridTriples : List (ℕ × ℚ × ℚ) :=
  min_articles_options.flatMap fun min_art =>
    buy_range.flatMap fun bt => sell_range.map fun st => (min_art, bt, st)

/-- The generation order of `sweep_thresholds`, read off a result's configuration
fields: `min_articles` ascending outermost, then `buy_threshold` ascending, then
`sell_threshold` in sequence order `-0.05, -0.10, …` (that is, `-sell_threshold`
ascending) innermost. -/
def cfgKey (r : EvalResult) : ℕ ×ₗ (ℚ ×ₗ ℚ) :=
  toLex (r.min_articles, toLex (r.buy_threshold, -r.sell_threshold))

/-- The enumeration order asserted by the claim — buy ascending innermost, within sell
ascending, within `min_articles` ascending — reading "sell ascending" as ascending
through the claimed sequence `-0.05, -0.10, …, -0.60` (i.e. `-sell_threshold`
ascending). -/
def claimKeyGen (r : EvalResult) : ℕ ×ₗ (ℚ ×ₗ ℚ) :=
  toLex (r.min_articles, toLex (-r.sell_threshold, r.buy_threshold))

/-- The claim's enumeration order under the alternative reading of "sell ascending":
numerically ascending `sell_threshold` (so `-0.60` first), buy ascending innermost. -/
def claimKeyNum (r : EvalResult) : ℕ ×ₗ (ℚ ×ₗ ℚ) :=
  toLex (r.min_articles, toLex (r.sell_threshold, r.buy_threshold))

/-- Four evaluation rows on which several sweep configurations tie at the maximal
`(accuracy, total_signals)` key: with `total_signals ≥ 3` filtering, the configurations
`(0.05, -0.10)`, `(0.05, -0.15)` and `(0.10, -0.05)` (for every `min_articles` option;
each row has five articles, so all options behave alike) all reach accuracy `2/3` with
3 signals, and nothing viable does better. -/
def sweepTieTable : List Row :=
  [⟨"AAPL", "2024-01-02", 7 / 100, -1, 5⟩,
   ⟨"AAPL", "2024-01-03", 12 / 100, 1, 5⟩,
   ⟨"AAPL", "2024-01-04", -7 / 100, 1, 5⟩,
   ⟨"AAPL", "2024-01-05", -17 / 100, -1, 5⟩]

/-- The weighted average that `generate_signals` computes from a ticker's article list
(its `avg_score` local): the fold of the dilution-filtering loop, with the
`weight_total > 0` guard. -/
def aggScore (articles : List SArticle) : ℚ :=
  let st := articles.foldl aggStep {}
  if 0 < st.weight_total then st.weighted_sum / st.weight_total else 0

/-- An article survives the dilution filter iff not (neutral polarity and
confidence below 0.7) — the negation of the `continue` guard. -/
def survives (a : SArticle) : Prop :=
  ¬(sentimentScore (a.sentiment.getD "neutral") = 0 ∧ a.confidence.getD (1 / 2) < 7 / 10)

instance : DecidablePred survives := fun a =>
  inferInstanceAs (Decidable (¬(sentimentScore (a.sentiment.getD "neutral") = 0 ∧
    a.confidence.getD (1 / 2) < 7 / 10)))

/-- The §4.3 Price-Change Resolver algorithm as the spec words it, for the refinement
statement of the resolver claim: sort the known dates ascending, take the earliest date
on or after the reference date (unresolvable if none), then the earliest date strictly
after it (unresolvable if none, i.e. the current date is the last known one), and return
the percentage change, unresolvable on a zero current price. -/
def specNextDayChange (prices : List (String × ℚ)) (date_str : String) : Option ℚ :=
  let ks := sortStringsAsc (prices.map Prod.fst)
  match (ks.filter fun d => decide (date_str ≤ d)).head? with
  | none => none
  | some cur =>
    match (ks.filter fun d => decide (cur < d)).head? with
    | none => none
    | some nxt =>
      let p0 := (prices.lookup cur).getD 0
      let p1 := (prices.lookup nxt).getD 0
      if p0 = 0 then none else some ((p1 - p0) / p0 * 100)

/-! ## Characterization of `evaluate_thresholds` -/

/-- The decision `evaluate_thresholds` makes for a single row (the `if`/`elif` chain of
`backtester.py` lines 185-202), as a three-valued classification. -/
def rowSignal (buy_thresh sell_thresh : ℚ) (min_articles : ℕ) (row : Row) : String :=
  if row.article_count < min_articles then "HOLD"
  else if buy_thresh < row.sentiment_score then "BUY"
  else if row.sentiment_score < sell_thresh then "SELL"
  else "HOLD"

theorem rowSignal_eq_buy_iff (bt st : ℚ) (m : ℕ) (r : Row) :
    rowSignal bt st m r = "BUY" ↔
      ¬ r.article_count < m ∧ bt < r.sentiment_score := by
  unfold rowSignal
  split_ifs with h1 h2 h3 <;> simp_all

theorem rowSignal_eq_sell_iff (bt st : ℚ) (m : ℕ) (r : Row) :
    rowSignal bt st m r = "SELL" ↔
      ¬ r.article_count < m ∧ ¬ bt < r.sentiment_score ∧ r.sentiment_score < st := by
  unfold rowSignal
  split_ifs with h1 h2 h3 <;> simp_all

theorem rowSignal_eq_hold_iff (bt st : ℚ) (m : ℕ) (r : Row) :
    rowSignal bt st m r = "HOLD" ↔
      r.article_count < m ∨
        (¬ bt < r.sentiment_score ∧ ¬ r.sentiment_score < st) := by
  unfold rowSignal
  split_ifs with h1 h2 h3 <;> simp_all

theorem rowSignal_cases (bt st : ℚ) (m : ℕ) (r : Row) :
    rowSignal bt st m r = "BUY" ∨ rowSignal bt st m r = "SELL" ∨
      rowSignal bt st m r = "HOLD" := by
  unfold rowSignal
  split_ifs <;> simp

/-- Master characterization of the `evaluate_thresholds` loop: after folding the whole
table, each counter has increased by the number of rows of the corresponding class. -/
theorem foldl_evalStep_eq (bt st : ℚ) (m : ℕ) (table : List Row) (c : Counts) :
    table.foldl (evalStep bt st m) c =
      { tp_buy := c.tp_buy +
          (table.countP fun r => decide (rowSignal bt st m r = "BUY" ∧ 0 < r.actual_change_pct))
        fp_buy := c.fp_buy +
          (table.countP fun r => decide (rowSignal bt st m r = "BUY" ∧ ¬ 0 < r.actual_change_pct))
        tp_sell := c.tp_sell +
          (table.countP fun r => decide (rowSignal bt st m r = "SELL" ∧ r.actual_change_pct < 0))
        fp_sell := c.fp_sell +
          (table.countP fun r => decide (rowSignal bt st m r = "SELL" ∧ ¬ r.actual_change_pct < 0))
        hold_count := c.hold_count + (table.countP fun r => decide (rowSignal bt st m r = "HOLD"))
        total_signals := c.total_signals +
          (table.countP fun r =>
            decide (rowSignal bt st m r = "BUY" ∨ rowSignal bt st m r = "SELL")) } := by
  induction table generalizing c with
  | nil => simp
  | cons r rs ih =>
    rw [List.foldl_cons, ih]
    by_cases h1 : r.article_count < m
    · have hr : rowSignal bt st m r = "HOLD" := (rowSignal_eq_hold_iff bt st m r).2 (Or.inl h1)
      simp only [evalStep, if_pos h1, hr, List.countP_cons]
      simp [Counts.mk.injEq] <;> omega
    · by_cases h2 : bt < r.sentiment_score
      · have hr : rowSignal bt st m r = "BUY" := (rowSignal_eq_buy_iff bt st m r).2 ⟨h1, h2⟩
        by_cases hch : 0 < r.actual_change_pct
        · simp only [evalStep, if_neg h1, if_pos h2, if_pos hch, hr, List.countP_cons]
          simp [Counts.mk.injEq, hch] <;> omega
        · simp only [evalStep, if_neg h1, if_pos h2, if_neg hch, hr, List.countP_cons]
          simp [Counts.mk.injEq, hch] <;> omega
      · by_cases h3 : r.sentiment_score < st
        · have hr : rowSignal bt st m r = "SELL" :=
            (rowSignal_eq_sell_iff bt st m r).2 ⟨h1, h2, h3⟩
          by_cases hch : r.actual_change_pct < 0
          · simp only [evalStep, if_neg h1, if_neg h2, if_pos h3, if_pos hch, hr,
              List.countP_cons]
            simp [Counts.mk.injEq, hch] <;> omega
          · simp only [evalStep, if_neg h1, if_neg h2, if_pos h3, if_neg hch, hr,
              List.countP_cons]
            simp [Counts.mk.injEq, hch] <;> omega
        · have hr : rowSignal bt st m r = "HOLD" :=
            (rowSignal_eq_hold_iff bt st m r).2 (Or.inr ⟨h2, h3⟩)
          simp only [evalStep, if_neg h1, if_neg h2, if_neg h3, hr, List.countP_cons]
          simp [Counts.mk.injEq] <;> omega

theorem eval_tp_buy (table : List Row) (bt st : ℚ) (m : ℕ) :
    (evaluate_thresholds table bt st m).tp_buy =
      table.countP fun r => decide (rowSignal bt st m r = "BUY" ∧ 0 < r.actual_change_pct) := by
  simp [evaluate_thresholds, foldl_evalStep_eq]

theorem eval_fp_buy (table : List Row) (bt st : ℚ) (m : ℕ) :
    (evaluate_thresholds table bt st m).fp_buy =
      table.countP fun r => decide (rowSignal bt st m r = "BUY" ∧ ¬ 0 < r.actual_change_pct) := by
  simp [evaluate_thresholds, foldl_evalStep_eq]

theorem eval_tp_sell (table : List Row) (bt st : ℚ) (m : ℕ) :
    (evaluate_thresholds table bt st m).tp_sell =
      table.countP fun r => decide (rowSignal bt st m r = "SELL" ∧ r.actual_change_pct < 0) := by
  simp [evaluate_thresholds, foldl_evalStep_eq]

theorem eval_fp_sell (table : List Row) (bt st : ℚ) (m : ℕ) :
    (evaluate_thresholds table bt st m).fp_sell =
      table.countP fun r => decide (rowSignal bt st m r = "SELL" ∧ ¬ r.actual_change_pct < 0) := by
  simp [evaluate_thresholds, foldl_evalStep_eq]

theorem eval_hold_count (table : List Row) (bt st : ℚ) (m : ℕ) :
    (evaluate_thresholds table bt st m).hold_count =
      table.countP fun r => decide (rowSignal bt st m r = "HOLD") := by
  simp [evaluate_thresholds, foldl_evalStep_eq]

theorem eval_total_signals (table : List Row) (bt st : ℚ) (m : ℕ) :
    (evaluate_thresholds table bt st m).total_signals =
      table.countP fun r =>
        decide (rowSignal bt st m r = "BUY" ∨ rowSignal bt st m r = "SELL") := by
  simp [evaluate_thresholds, foldl_evalStep_eq]

theorem eval_correct (table : List Row) (bt st : ℚ) (m : ℕ) :
    (evaluate_thresholds table bt st m).correct =
      (evaluate_thresholds table bt st m).tp_buy +
        (evaluate_thresholds table bt st m).tp_sell := by
  simp [evaluate_thresholds]

theorem eval_accuracy (table : List Row) (bt st : ℚ) (m : ℕ) :
    (evaluate_thresholds table bt st m).accuracy =
      if 0 < (evaluate_thresholds table bt st m).total_signals then
        ((evaluate_thresholds table bt st m).correct : ℚ) /
          (evaluate_thresholds table bt st m).total_signals
      else 0 := by
  simp [evaluate_thresholds]

theorem eval_cfg_fields (table : List Row) (bt st : ℚ) (m : ℕ) :
    (evaluate_thresholds table bt st m).buy_threshold = bt ∧
      (evaluate_thresholds table bt st m).sell_threshold = st ∧
      (evaluate_thresholds table bt st m).min_articles = m :=
  ⟨rfl, rfl, rfl⟩

/-- Adding up two disjoint sub-classes stays below a covering class. -/
theorem countP_disjoint_le {α : Type} (p q w : α → Bool) (l : List α)
    (h : ∀ a ∈ l, (p a → w a) ∧ (q a → w a) ∧ ¬(p a ∧ q a)) :
    l.countP p + l.countP q ≤ l.countP w := by
  induction l with
  | nil => simp
  | cons x xs ih =>
    have hx := h x (by simp)
    have hxs := ih fun a ha => h a (by simp [ha])
    cases hp : p x <;> cases hq : q x <;> cases hw : w x <;>
      simp_all [List.countP_cons] <;> omega

/-- Splitting a class by a further test. -/
theorem countP_split {α : Type} (p q : α → Bool) (l : List α) :
    l.countP (fun a => p a && q a) + l.countP (fun a => p a && !q a) = l.countP p := by
  induction l with
  | nil => simp
  | cons x xs ih =>
    cases hp : p x <;> cases hq : q x <;> simp_all [List.countP_cons] <;> omega

/-- Counting a disjunction of incompatible classes. -/
theorem countP_or_disjoint {α : Type} (p q : α → Bool) (l : List α)
    (h : ∀ a ∈ l, ¬(p a ∧ q a)) :
    l.countP (fun a => p a || q a) = l.countP p + l.countP q := by
  induction l with
  | nil => simp
  | cons x xs ih =>
    have hx := h x (by simp)
    have hxs := ih fun a ha => h a (by simp [ha])
    cases hp : p x <;> cases hq : q x <;> simp_all [List.countP_cons] <;> omega

/-- Every table row is classified exactly once: signals plus holds exhaust the table. -/
theorem eval_total_add_hold (table : List Row) (bt st : ℚ) (m : ℕ) :
    (evaluate_thresholds table bt st m).total_signals +
      (evaluate_thresholds table bt st m).hold_count = table.length := by
  rw [eval_total_signals, eval_hold_count, List.length_eq_countP_add_countP
    (fun r => decide (rowSignal bt st m r = "BUY" ∨ rowSignal bt st m r = "SELL"))]
  congr 1
  apply List.countP_congr
  intro r _
  rcases rowSignal_cases bt st m r with h | h | h <;> simp [h]

theorem eval_total_le_length (table : List Row) (bt st : ℚ) (m : ℕ) :
    (evaluate_thresholds table bt st m).total_signals ≤ table.length := by
  have h := eval_total_add_hold table bt st m
  omega

theorem eval_correct_le_total (table : List Row) (bt st : ℚ) (m : ℕ) :
    (evaluate_thresholds table bt st m).correct ≤
      (evaluate_thresholds table bt st m).total_signals := by
  rw [eval_correct, eval_tp_buy, eval_tp_sell, eval_total_signals]
  apply countP_disjoint_le
  intro r _
  refine ⟨?_, ?_, ?_⟩
  · simp only [decide_eq_true_eq]
    exact fun h => Or.inl h.1
  · simp only [decide_eq_true_eq]
    exact fun h => Or.inr h.1
  · simp only [decide_eq_true_eq]
    rintro ⟨⟨h1, -⟩, ⟨h2, -⟩⟩
    rw [h1] at h2
    simp at h2

theorem eval_accuracy_nonneg (table : List Row) (bt st : ℚ) (m : ℕ) :
    0 ≤ (evaluate_thresholds table bt st m).accuracy := by
  rw [eval_accuracy]
  split_ifs with h
  · positivity
  · exact le_refl 0

theorem eval_accuracy_le_one (table : List Row) (bt st : ℚ) (m : ℕ) :
    (evaluate_thresholds table bt st m).accuracy ≤ 1 := by
  rw [eval_accuracy]
  split_ifs with h
  · rw [div_le_one (by exact_mod_cast h)]
    exact_mod_cast eval_correct_le_total table bt st m
  · exact zero_le_one

/-! ## Claims C2, C7, C9: evaluator invariants -/

/-- **C2.** For every evaluation table and every threshold triple, the Threshold
Evaluator's result satisfies `total_signals + hold_count = len(table)` (every row
classified exactly once), `correct = tp_buy + tp_sell ≤ total_signals`, and
`accuracy ∈ [0,1]`, with `accuracy = 0.0` when `total_signals = 0`. -/
theorem C2_evaluator_invariants (table : List Row) (bt st : ℚ) (m : ℕ) :
    (evaluate_thresholds table bt st m).total_signals +
        (evaluate_thresholds table bt st m).hold_count = table.length ∧
      (evaluate_thresholds table bt st m).correct =
        (evaluate_thresholds table bt st m).tp_buy +
          (evaluate_thresholds table bt st m).tp_sell ∧
      (evaluate_thresholds table bt st m).correct ≤
        (evaluate_thresholds table bt st m).total_signals ∧
      0 ≤ (evaluate_thresholds table bt st m).accuracy ∧
      (evaluate_thresholds table bt st m).accuracy ≤ 1 ∧
      ((evaluate_thresholds table bt st m).total_signals = 0 →
        (evaluate_thresholds table bt st m).accuracy = 0) := by
  refine ⟨eval_total_add_hold table bt st m, eval_correct table bt st m,
    eval_correct_le_total table bt st m, eval_accuracy_nonneg table bt st m,
    eval_accuracy_le_one table bt st m, fun h => ?_⟩
  rw [eval_accuracy]
  simp [h]

theorem C2_evaluator_invariants_witness :
    (evaluate_thresholds [] (1 / 20) (-1 / 20) 1).total_signals = 0 ∧
      (evaluate_thresholds [] (1 / 20) (-1 / 20) 1).accuracy = 0 :=
  ⟨by with_unfolding_all decide,
    (C2_evaluator_invariants [] (1 / 20) (-1 / 20) 1).2.2.2.2.2
      (by with_unfolding_all decide)⟩

/-- **C7.** In the Threshold Evaluator, no row is ever counted as both a BUY and a SELL
signal: the BUY and SELL buckets count the rows whose (single-valued) classification is
`"BUY"` resp. `"SELL"`, these classes are mutually exclusive, and `total_signals` is
their disjoint sum.  Moreover, when `sell_threshold > buy_threshold`, every row with
`article_count ≥ min_articles` whose score lies in the overlap (above `buy_threshold`
and below `sell_threshold`) is classified as BUY, because the BUY branch is checked
first. -/
theorem C7_buy_branch_first (table : List Row) (bt st : ℚ) (m : ℕ) :
    ((evaluate_thresholds table bt st m).tp_buy +
        (evaluate_thresholds table bt st m).fp_buy =
        table.countP fun r => decide (rowSignal bt st m r = "BUY")) ∧
      ((evaluate_thresholds table bt st m).tp_sell +
        (evaluate_thresholds table bt st m).fp_sell =
        table.countP fun r => decide (rowSignal bt st m r = "SELL")) ∧
      ((evaluate_thresholds table bt st m).total_signals =
        (evaluate_thresholds table bt st m).tp_buy +
          (evaluate_thresholds table bt st m).fp_buy +
          ((evaluate_thresholds table bt st m).tp_sell +
            (evaluate_thresholds table bt st m).fp_sell)) ∧
      (∀ r ∈ table, ¬(rowSignal bt st m r = "BUY" ∧ rowSignal bt st m r = "SELL")) ∧
      (bt < st → ∀ r ∈ table, m ≤ r.article_count → bt < r.sentiment_score →
        r.sentiment_score < st → rowSignal bt st m r = "BUY") := by
  have hdisj : ∀ r ∈ table,
      ¬(rowSignal bt st m r = "BUY" ∧ rowSignal bt st m r = "SELL") := by
    intro r _
    rintro ⟨h1, h2⟩
    rw [h1] at h2
    simp at h2
  have hbuy : (evaluate_thresholds table bt st m).tp_buy +
      (evaluate_thresholds table bt st m).fp_buy =
      table.countP fun r => decide (rowSignal bt st m r = "BUY") := by
    rw [eval_tp_buy, eval_fp_buy]
    have e1 : (table.countP fun r =>
        decide (rowSignal bt st m r = "BUY" ∧ 0 < r.actual_change_pct)) =
        table.countP fun r =>
          decide (rowSignal bt st m r = "BUY") && decide (0 < r.actual_change_pct) :=
      List.countP_congr fun r _ => by simp
    have e2 : (table.countP fun r =>
        decide (rowSignal bt st m r = "BUY" ∧ ¬ 0 < r.actual_change_pct)) =
        table.countP fun r =>
          decide (rowSignal bt st m r = "BUY") && !decide (0 < r.actual_change_pct) :=
      List.countP_congr fun r _ => by simp
    rw [e1, e2, countP_split]
  have hsell : (evaluate_thresholds table bt st m).tp_sell +
      (evaluate_thresholds table bt st m).fp_sell =
      table.countP fun r => decide (rowSignal bt st m r = "SELL") := by
    rw [eval_tp_sell, eval_fp_sell]
    have e1 : (table.countP fun r =>
        decide (rowSignal bt st m r = "SELL" ∧ r.actual_change_pct < 0)) =
        table.countP fun r =>
          decide (rowSignal bt st m r = "SELL") && decide (r.actual_change_pct < 0) :=
      List.countP_congr fun r _ => by simp
    have e2 : (table.countP fun r =>
        decide (rowSignal bt st m r = "SELL" ∧ ¬ r.actual_change_pct < 0)) =
        table.countP fun r =>
          decide (rowSignal bt st m r = "SELL") && !decide (r.actual_change_pct < 0) :=
      List.countP_congr fun r _ => by simp
    rw [e1, e2, countP_split]
  refine ⟨hbuy, hsell, ?_, hdisj, ?_⟩
  · rw [eval_total_signals, hbuy, hsell]
    have e : (table.countP fun r =>
        decide (rowSignal bt st m r = "BUY" ∨ rowSignal bt st m r = "SELL")) =
        table.countP fun r =>
          decide (rowSignal bt st m r = "BUY") || decide (rowSignal bt st m r = "SELL") :=
      List.countP_congr fun r _ => by simp
    rw [e, countP_or_disjoint]
    intro r hr
    have := hdisj r hr
    simp only [decide_eq_true_eq]
    exact this
  · intro hbs r _ hcount hb hs
    rw [rowSignal_eq_buy_iff]
    exact ⟨not_lt.2 hcount, hb⟩

theorem C7_buy_branch_first_witness :
    rowSignal (1 / 10) (2 / 10) 1 ⟨"A", "d", 3 / 20, 1, 2⟩ = "BUY" :=
  (C7_buy_branch_first [⟨"A", "d", 3 / 20, 1, 2⟩] (1 / 10) (2 / 10) 1).2.2.2.2
    (by with_unfolding_all decide) ⟨"A", "d", 3 / 20, 1, 2⟩ (by simp)
    (by with_unfolding_all decide) (by with_unfolding_all decide)
    (by with_unfolding_all decide)

/-- **C9.** For every evaluation table and fixed `buy_threshold` and `sell_threshold`,
the evaluator's `hold_count` is monotonically non-decreasing as `min_articles`
increases: raising `min_articles` can only move rows from signaled to HOLD, never the
reverse. -/
theorem C9_hold_count_monotone (table : List Row) (bt st : ℚ) (m m' : ℕ) (h : m ≤ m') :
    (evaluate_thresholds table bt st m).hold_count ≤
      (evaluate_thresholds table bt st m').hold_count := by
  rw [eval_hold_count, eval_hold_count]
  apply List.countP_mono_left
  intro r _ hr
  simp only [decide_eq_true_eq] at hr ⊢
  rw [rowSignal_eq_hold_iff] at hr ⊢
  rcases hr with hc | hsc
  · exact Or.inl (lt_of_lt_of_le hc h)
  · exact Or.inr hsc

theorem C9_hold_count_monotone_witness :
    (evaluate_thresholds [⟨"A", "d", 1 / 2, 1, 1⟩] (1 / 5) (-1 / 5) 1).hold_count ≤
      (evaluate_thresholds [⟨"A", "d", 1 / 2, 1, 1⟩] (1 / 5) (-1 / 5) 2).hold_count :=
  C9_hold_count_monotone [⟨"A", "d", 1 / 2, 1, 1⟩] (1 / 5) (-1 / 5) 1 2 (by decide)

/-! ## Characterization of the sweep selection -/

/-- The fold in `selectOptimal` returns an element that splits its input into a strict
prefix of strictly smaller keys and a suffix of no-larger keys: it is the earliest
element with maximal key, exactly `viable[0]` after Python's stable descending sort. -/
theorem foldl_pickFirstMax_spec (x : EvalResult) (xs : List EvalResult) :
    ∃ as bs,
      x :: xs =
        as ++ (xs.foldl (fun best r => if resultKey best < resultKey r then r else best) x)
          :: bs ∧
      (∀ a ∈ as,
        resultKey a <
          resultKey
            (xs.foldl (fun best r => if resultKey best < resultKey r then r else best) x)) ∧
      (∀ b ∈ bs,
        ¬ resultKey
            (xs.foldl (fun best r => if resultKey best < resultKey r then r else best) x) <
          resultKey b) := by
  induction xs generalizing x with
  | nil => exact ⟨[], [], rfl, by simp, by simp⟩
  | cons y ys ih =>
    rw [List.foldl_cons]
    by_cases hxy : resultKey x < resultKey y
    · rw [if_pos hxy]
      obtain ⟨as', bs', hsplit, ha', hb'⟩ := ih y
      refine ⟨x :: as', bs', by rw [List.cons_append, ← hsplit], ?_, hb'⟩
      intro a ha
      rcases List.mem_cons.1 ha with rfl | ha
      · have hy : resultKey y ≤
            resultKey
              (ys.foldl (fun best r => if resultKey best < resultKey r then r else best) y) := by
          cases as' with
          | nil =>
            have hhd : y = (ys.foldl
                (fun best r => if resultKey best < resultKey r then r else best) y) := by
              simpa using congrArg (fun l => l.head?) hsplit
            rw [← hhd]
          | cons a0 as'' =>
            have hy0 : y = a0 := by
              simpa using congrArg (fun l => l.head?) hsplit
            have hlt := ha' a0 (by simp)
            rw [← hy0] at hlt
            exact le_of_lt hlt
        exact lt_of_lt_of_le hxy hy
      · exact ha' a ha
    · rw [if_neg hxy]
      obtain ⟨as', bs', hsplit, ha', hb'⟩ := ih x
      cases as' with
      | nil =>
        have hx : x = (ys.foldl
            (fun best r => if resultKey best < resultKey r then r else best) x) := by
          simpa using congrArg (fun l => l.head?) hsplit
        refine ⟨[], y :: ys, by simp [← hx], by simp, ?_⟩
        intro b hb
        rcases List.mem_cons.1 hb with rfl | hb
        · rw [← hx]; exact hxy
        · rw [← hx]
          rw [← hx] at hb'
          have htl : ys = bs' := by
            simpa using congrArg (fun l => l.tail) hsplit
          exact hb' b (htl ▸ hb)
      | cons a0 as'' =>
        have hy0 : x = a0 := by
          simpa using congrArg (fun l => l.head?) hsplit
        have htl : ys = as'' ++ (ys.foldl
            (fun best r => if resultKey best < resultKey r then r else best) x) :: bs' := by
          simpa using congrArg (fun l => l.tail) hsplit
        refine ⟨x :: y :: as'', bs', by rw [List.cons_append, List.cons_append, ← htl], ?_, hb'⟩
        intro a ha
        have hx : resultKey x <
            resultKey
              (ys.foldl (fun best r => if resultKey best < resultKey r then r else best) x) := by
          have hlt := ha' a0 (by simp)
          rw [← hy0] at hlt
          exact hlt
        rcases List.mem_cons.1 ha with rfl | ha
        · exact hx
        · rcases List.mem_cons.1 ha with rfl | ha
          · exact lt_of_le_of_lt (not_lt.1 hxy) hx
          · exact ha' a (by simp [ha])

theorem mem_viableOf (results : List EvalResult) (r : EvalResult) (h : r ∈ viableOf results) :
    r ∈ results ∧ 1 ≤ r.total_signals := by
  unfold viableOf at h
  split at h
  · rcases List.mem_filter.1 h with ⟨hmem, hp⟩
    exact ⟨hmem, by simpa using hp⟩
  · rcases List.mem_filter.1 h with ⟨hmem, hp⟩
    have : 3 ≤ r.total_signals := by simpa using hp
    exact ⟨hmem, by omega⟩

theorem viableOf_eq_nil_iff (results : List EvalResult) :
    viableOf results = [] ↔ ∀ r ∈ results, r.total_signals = 0 := by
  unfold viableOf
  split
  next hemp =>
    constructor
    · intro h r hr
      have h1 := List.filter_eq_nil_iff.1 h r hr
      simp only [decide_eq_true_eq] at h1
      omega
    · intro h
      apply List.filter_eq_nil_iff.2
      intro r hr
      simp [h r hr]
  next hemp =>
    constructor
    · intro h
      exact absurd (by simp [h] : (results.filter fun r =>
        decide (3 ≤ r.total_signals)).isEmpty = true) hemp
    · intro h
      exfalso
      have hne : (results.filter fun r => decide (3 ≤ r.total_signals)) ≠ [] := by
        intro he
        exact hemp (by simp [he])
      obtain ⟨r, hr⟩ := List.exists_mem_of_ne_nil _ hne
      rcases List.mem_filter.1 hr with ⟨hmem, hp⟩
      have hz := h r hmem
      simp [hz] at hp

/-- What `selectOptimal` returns: a viable result, with maximal `(accuracy,
total_signals)` key among the viable results, occurring before every other viable
result of equal key (the strict-prefix/suffix split). -/
theorem selectOptimal_spec (results : List EvalResult) (r : EvalResult)
    (h : selectOptimal results = some r) :
    r ∈ viableOf results ∧ (∀ s ∈ viableOf results, resultKey s ≤ resultKey r) ∧
      ∃ as bs, viableOf results = as ++ r :: bs ∧
        (∀ a ∈ as, resultKey a < resultKey r) ∧ (∀ b ∈ bs, ¬ resultKey r < resultKey b) := by
  unfold selectOptimal at h
  split at h
  · exact absurd h (by simp)
  next x xs heq =>
    have hr : r = xs.foldl (fun best r => if resultKey best < resultKey r then r else best) x :=
      (Option.some.inj h).symm
    obtain ⟨as, bs, hsplit, ha, hb⟩ := foldl_pickFirstMax_spec x xs
    rw [← hr] at hsplit ha hb
    have hmem : r ∈ viableOf results := by
      rw [heq, hsplit]
      exact List.mem_append.2 (Or.inr (by simp))
    refine ⟨hmem, ?_, as, bs, by rw [heq, hsplit], ha, hb⟩
    intro s hs
    rw [heq, hsplit] at hs
    rcases List.mem_append.1 hs with hs | hs
    · exact le_of_lt (ha s hs)
    · rcases List.mem_cons.1 hs with rfl | hs
      · exact le_refl _
      · exact not_lt.1 (hb s hs)

theorem selectOptimal_eq_none_iff (results : List EvalResult) :
    selectOptimal results = none ↔ ∀ r ∈ results, r.total_signals = 0 := by
  rw [← viableOf_eq_nil_iff]
  unfold selectOptimal
  split
  next heq => simp [heq]
  next x xs heq => simp [heq]

theorem mem_sweep (table : List Row) (r : EvalResult) (h : r ∈ sweep_thresholds table) :
    ∃ m bt st, r = evaluate_thresholds table bt st m := by
  simp only [sweep_thresholds, List.mem_flatMap, List.mem_map] at h
  obtain ⟨m, -, bt, -, st, -, rfl⟩ := h
  exact ⟨m, bt, st, rfl⟩

theorem select_sweep_some_table_ne_nil (table : List Row) (opt : EvalResult)
    (h : selectOptimal (sweep_thresholds table) = some opt) : table ≠ [] := by
  intro hnil
  subst hnil
  have hmem := (selectOptimal_spec _ _ h).1
  obtain ⟨hsw, h1⟩ := mem_viableOf _ _ hmem
  obtain ⟨m, bt, st, rfl⟩ := mem_sweep _ _ hsw
  have hle := eval_total_le_length [] bt st m
  simp at hle
  omega

theorem build_backtest_table_nil (prices : List (String × List (String × ℚ))) :
    build_backtest_table [] prices = [] := rfl

/-! ## Claims C8 and C4: sweep viability fallback and auto-tune -/

/-- **C8.** The selection first filters to configurations with `total_signals ≥ 3`; if
none qualifies it relaxes the filter to `total_signals ≥ 1`; only when even the relaxed
filter is empty does it report "no viable configuration" (`selectOptimal = none`), in
which case the Auto-Tuner keeps the current config rather than crash. -/
theorem C8_viability_fallback :
    (∀ results : List EvalResult,
      ((∃ r ∈ results, 3 ≤ r.total_signals) →
        viableOf results = results.filter fun r => decide (3 ≤ r.total_signals)) ∧
      ((∀ r ∈ results, ¬ 3 ≤ r.total_signals) →
        viableOf results = results.filter fun r => decide (1 ≤ r.total_signals)) ∧
      (selectOptimal results = none ↔ ∀ r ∈ results, r.total_signals = 0)) ∧
    ∀ (articles : List BArticle) (prices : List (String × List (String × ℚ)))
      (cfg : ThresholdConfig),
      selectOptimal (sweep_thresholds (build_backtest_table articles prices)) = none →
        auto_tune articles prices cfg = (false, cfg) := by
  constructor
  · intro results
    refine ⟨?_, ?_, selectOptimal_eq_none_iff results⟩
    · rintro ⟨r, hr, h3⟩
      have hne : ¬ ((results.filter fun r => decide (3 ≤ r.total_signals)).isEmpty = true) := by
        simp only [List.isEmpty_iff]
        intro he
        have := List.filter_eq_nil_iff.1 he r hr
        simp [h3] at this
      unfold viableOf
      rw [if_neg hne]
    · intro hnone
      have hpos : ((results.filter fun r => decide (3 ≤ r.total_signals)).isEmpty = true) := by
        simp only [List.isEmpty_iff]
        apply List.filter_eq_nil_iff.2
        intro r hr
        simpa using hnone r hr
      unfold viableOf
      rw [if_pos hpos]
  · intro articles prices cfg hsel
    by_cases ha : articles.isEmpty
    · simp [auto_tune, ha]
    · by_cases ht : (build_backtest_table articles prices).isEmpty
      · simp [auto_tune, ha, ht]
      · simp [auto_tune, ha, ht, hsel]

theorem C8_viability_fallback_witness :
    viableOf [⟨1 / 20, -1 / 20, 1, 1, 2, 2, 2, 0, 0, 0, 0⟩] =
        List.filter (fun r => decide (1 ≤ r.total_signals))
          [⟨1 / 20, -1 / 20, 1, 1, 2, 2, 2, 0, 0, 0, 0⟩] ∧
      viableOf [⟨1 / 20, -1 / 20, 1, 1, 2, 2, 2, 0, 0, 0, 0⟩] =
        [⟨1 / 20, -1 / 20, 1, 1, 2, 2, 2, 0, 0, 0, 0⟩] :=
  ⟨((C8_viability_fallback.1 [⟨1 / 20, -1 / 20, 1, 1, 2, 2, 2, 0, 0, 0, 0⟩]).2.1
      (by with_unfolding_all decide)),
    by with_unfolding_all decide⟩

/-- **C4.** The Auto-Tuner overwrites the live `ThresholdConfig` iff the sweep-optimal
accuracy strictly exceeds the current configuration's accuracy, returning `True` exactly
when an update occurred; on any data failure (no articles, no evaluation rows, no viable
sweep configuration) it returns `False` and leaves all three live threshold values
unchanged. -/
theorem C4_auto_tune_update_iff (articles : List BArticle)
    (prices : List (String × List (String × ℚ))) (cfg : ThresholdConfig) :
    ((auto_tune articles prices cfg).1 = false → (auto_tune articles prices cfg).2 = cfg) ∧
    ((auto_tune articles prices cfg).1 = true ↔
      ∃ opt, selectOptimal (sweep_thresholds (build_backtest_table articles prices)) =
          some opt ∧
        (evaluate_thresholds (build_backtest_table articles prices) cfg.buy_threshold
          cfg.sell_threshold cfg.min_articles).accuracy < opt.accuracy) ∧
    (∀ opt, selectOptimal (sweep_thresholds (build_backtest_table articles prices)) =
        some opt →
      (evaluate_thresholds (build_backtest_table articles prices) cfg.buy_threshold
        cfg.sell_threshold cfg.min_articles).accuracy < opt.accuracy →
      (auto_tune articles prices cfg).2 =
        { buy_threshold := opt.buy_threshold
          sell_threshold := opt.sell_threshold
          min_articles := opt.min_articles }) ∧
    ((articles = [] ∨ build_backtest_table articles prices = [] ∨
        selectOptimal (sweep_thresholds (build_backtest_table articles prices)) = none) →
      auto_tune articles prices cfg = (false, cfg)) := by
  have hselnil : ∀ table : List Row, table = [] →
      selectOptimal (sweep_thresholds table) = none := by
    intro table htab
    subst htab
    apply (selectOptimal_eq_none_iff _).2
    intro r hr
    obtain ⟨m, bt, st, rfl⟩ := mem_sweep _ _ hr
    have := eval_total_le_length [] bt st m
    simpa using this
  by_cases ha : articles.isEmpty
  · have ha' : articles = [] := List.isEmpty_iff.1 ha
    have htab : build_backtest_table articles prices = [] := by
      rw [ha']
      exact build_backtest_table_nil prices
    have hsel := hselnil _ htab
    have heq : auto_tune articles prices cfg = (false, cfg) := by simp [auto_tune, ha]
    rw [heq]
    refine ⟨fun _ => rfl, ?_, ?_, fun _ => rfl⟩
    · constructor
      · intro hcontra
        exact absurd hcontra (by simp)
      · rintro ⟨opt, hopt, -⟩
        rw [hsel] at hopt
        exact absurd hopt (by simp)
    · intro opt hopt
      rw [hsel] at hopt
      exact absurd hopt (by simp)
  · by_cases ht : (build_backtest_table articles prices).isEmpty
    · have htab : build_backtest_table articles prices = [] := List.isEmpty_iff.1 ht
      have hsel := hselnil _ htab
      have heq : auto_tune articles prices cfg = (false, cfg) := by simp [auto_tune, ha, ht]
      rw [heq]
      refine ⟨fun _ => rfl, ?_, ?_, fun _ => rfl⟩
      · constructor
        · intro hcontra
          exact absurd hcontra (by simp)
        · rintro ⟨opt, hopt, -⟩
          rw [hsel] at hopt
          exact absurd hopt (by simp)
      · intro opt hopt
        rw [hsel] at hopt
        exact absurd hopt (by simp)
    · cases hsel : selectOptimal (sweep_thresholds (build_backtest_table articles prices)) with
      | none =>
        have heq : auto_tune articles prices cfg = (false, cfg) := by
          simp [auto_tune, ha, ht, hsel]
        rw [heq]
        refine ⟨fun _ => rfl, ?_, ?_, fun _ => rfl⟩
        · constructor
          · intro hcontra
            exact absurd hcontra (by simp)
          · rintro ⟨opt, hopt, -⟩
            exact absurd hopt (by simp)
        · intro opt hopt
          exact absurd hopt (by simp)
      | some opt =>
        by_cases hacc : (evaluate_thresholds (build_backtest_table articles prices)
            cfg.buy_threshold cfg.sell_threshold cfg.min_articles).accuracy < opt.accuracy
        · have heq : auto_tune articles prices cfg =
              (true, { buy_threshold := opt.buy_threshold
                       sell_threshold := opt.sell_threshold
                       min_articles := opt.min_articles }) := by
            simp [auto_tune, ha, ht, hsel, hacc]
          rw [heq]
          refine ⟨by simp, ?_, ?_, ?_⟩
          · simp only [true_iff]
            exact ⟨opt, rfl, hacc⟩
          · intro opt' hopt' _
            have : opt = opt' := Option.some.inj hopt'
            rw [← this]
          · intro hfail
            rcases hfail with h | h | h
            · exact absurd (List.isEmpty_iff.2 h) (by simpa using ha)
            · exact absurd (List.isEmpty_iff.2 h) (by simpa using ht)
            · simp at h
        · have heq : auto_tune articles prices cfg = (false, cfg) := by
            simp [auto_tune, ha, ht, hsel, hacc]
          rw [heq]
          refine ⟨fun _ => rfl, ?_, ?_, fun _ => rfl⟩
          · constructor
            · intro hcontra
              exact absurd hcontra (by simp)
            · rintro ⟨opt', hopt', hacc'⟩
              have : opt = opt' := Option.some.inj hopt'
              rw [← this] at hacc'
              exact absurd hacc' hacc
          · intro opt' hopt' hacc'
            have : opt = opt' := Option.some.inj hopt'
            rw [← this] at hacc'
            exact absurd hacc' hacc

theorem C4_auto_tune_update_iff_witness :
    auto_tune [] [] ⟨2 / 10, -5 / 100, 1⟩ = (false, ⟨2 / 10, -5 / 100, 1⟩) :=
  (C4_auto_tune_update_iff [] [] ⟨2 / 10, -5 / 100, 1⟩).2.2.2 (Or.inl rfl)

/-! ## Claim C1: the sweep grid and the selection order -/

theorem sweep_eq_map (table : List Row) :
    sweep_thresholds table =
      sweepGridTriples.map fun c => evaluate_thresholds table c.2.1 c.2.2 c.1 := by
  simp only [sweep_thresholds, sweepGridTriples, List.map_flatMap, List.map_map]
  rfl

theorem buy_range_pairwise : buy_range.Pairwise (· < ·) := by
  rw [buy_range, List.pairwise_map]
  apply List.Pairwise.imp ?_ (List.pairwise_lt_range 12)
  intro a b hab
  have hq : ((a + 1 : ℕ) : ℚ) < ((b + 1 : ℕ) : ℚ) := by
    exact_mod_cast Nat.succ_lt_succ hab
  exact mul_lt_mul_of_pos_right hq (by norm_num)

theorem sell_range_pairwise : sell_range.Pairwise fun s1 s2 => -s1 < -s2 := by
  rw [sell_range, List.pairwise_map]
  apply List.Pairwise.imp ?_ (List.pairwise_lt_range 12)
  intro a b hab
  have hq : ((a + 1 : ℕ) : ℚ) < ((b + 1 : ℕ) : ℚ) := by
    exact_mod_cast Nat.succ_lt_succ hab
  simp only [neg_neg]
  exact mul_lt_mul_of_pos_right hq (by norm_num)

theorem sweepGridTriples_pairwise :
    sweepGridTriples.Pairwise fun a b =>
      toLex (a.1, toLex (a.2.1, -a.2.2)) < toLex (b.1, toLex (b.2.1, -b.2.2)) := by
  unfold sweepGridTriples
  rw [List.pairwise_flatMap]
  constructor
  · intro m _
    rw [List.pairwise_flatMap]
    constructor
    · intro bt _
      rw [List.pairwise_map]
      apply List.Pairwise.imp ?_ sell_range_pairwise
      intro s1 s2 h
      rw [Prod.Lex.lt_iff]
      exact Or.inr ⟨rfl, by rw [Prod.Lex.lt_iff]; exact Or.inr ⟨rfl, h⟩⟩
    · apply List.Pairwise.imp ?_ buy_range_pairwise
      intro b1 b2 h x hx y hy
      simp only [List.mem_map] at hx hy
      obtain ⟨s1, -, rfl⟩ := hx
      obtain ⟨s2, -, rfl⟩ := hy
      rw [Prod.Lex.lt_iff]
      exact Or.inr ⟨rfl, by rw [Prod.Lex.lt_iff]; exact Or.inl h⟩
  · apply List.Pairwise.imp ?_
      (by decide : min_articles_options.Pairwise (· < ·))
    intro m1 m2 h x hx y hy
    simp only [List.mem_flatMap, List.mem_map] at hx hy
    obtain ⟨bt1, -, s1, -, rfl⟩ := hx
    obtain ⟨bt2, -, s2, -, rfl⟩ := hy
    rw [Prod.Lex.lt_iff]
    exact Or.inl h

/-- Along the sweep's output, the configuration key strictly increases: the list order
of `sweep_thresholds` is exactly the generation order `cfgKey`. -/
theorem sweep_pairwise_cfgKey (table : List Row) :
    (sweep_thresholds table).Pairwise fun a b => cfgKey a < cfgKey b := by
  rw [sweep_eq_map, List.pairwise_map]
  exact sweepGridTriples_pairwise

theorem viableOf_pairwise {R : EvalResult → EvalResult → Prop} (results : List EvalResult)
    (h : results.Pairwise R) : (viableOf results).Pairwise R := by
  unfold viableOf
  split
  · exact h.filter _
  · exact h.filter _

/-- **C1 (amended).** For every evaluation table, the Threshold Sweeper evaluates
exactly the 576 configurations of `buy_threshold ∈ {0.05, …, 0.60}`,
`sell_threshold ∈ {-0.05, …, -0.60}` and `min_articles ∈ {1,2,3,5}` — one call of the
evaluator per grid triple, in generation order — and among viable configurations
selects the one maximizing `(accuracy, total_signals)` lexicographically, with
remaining ties broken by enumeration order: sell in sequence order (`-0.05` first,
i.e. magnitude ascending) innermost, within buy ascending, within `min_articles`
ascending (`cfgKey`). -/
theorem C1_sweep_selection (table : List Row) :
    sweep_thresholds table =
        (sweepGridTriples.map fun c => evaluate_thresholds table c.2.1 c.2.2 c.1) ∧
      (sweep_thresholds table).length = 576 ∧
      ∀ r, selectOptimal (sweep_thresholds table) = some r →
        r ∈ viableOf (sweep_thresholds table) ∧
        (∀ s ∈ viableOf (sweep_thresholds table), resultKey s ≤ resultKey r) ∧
        (∀ s ∈ viableOf (sweep_thresholds table), resultKey s = resultKey r → s ≠ r →
          cfgKey r < cfgKey s) := by
  refine ⟨sweep_eq_map table, ?_, ?_⟩
  · rw [sweep_eq_map, List.length_map]
    with_unfolding_all decide
  · intro r hsel
    obtain ⟨hmem, hmax, as, bs, hsplit, ha, hb⟩ := selectOptimal_spec _ _ hsel
    refine ⟨hmem, hmax, ?_⟩
    intro s hs hkey hne
    have hpw : (viableOf (sweep_thresholds table)).Pairwise fun a b => cfgKey a < cfgKey b :=
      viableOf_pairwise _ (sweep_pairwise_cfgKey table)
    rw [hsplit] at hpw hs
    rcases List.mem_append.1 hs with hsa | hsc
    · exact absurd hkey (ne_of_lt (ha s hsa))
    · rcases List.mem_cons.1 hsc with rfl | hsb
      · exact absurd rfl hne
      · exact (List.pairwise_cons.1 (List.pairwise_append.1 hpw).2.1).1 s hsb

theorem C1_sweep_selection_witness :
    (sweep_thresholds sweepTieTable).length = 576 ∧
      cfgKey (evaluate_thresholds sweepTieTable (1 / 20) (-1 / 10) 1) <
        cfgKey (evaluate_thresholds sweepTieTable (1 / 10) (-1 / 20) 1) :=
  ⟨(C1_sweep_selection sweepTieTable).2.1,
    (((C1_sweep_selection sweepTieTable).2.2
        (evaluate_thresholds sweepTieTable (1 / 20) (-1 / 10) 1)
        (by with_unfolding_all decide)).2.2
      (evaluate_thresholds sweepTieTable (1 / 10) (-1 / 20) 1)
      (by with_unfolding_all decide) (by with_unfolding_all decide)
      (by with_unfolding_all decide))⟩

/-- **C1, counterexample.** On `sweepTieTable` the code selects the configuration
`(min_articles, buy, sell) = (1, 0.05, -0.10)`, yet the viable results for
`(1, 0.10, -0.05)` and `(1, 0.05, -0.15)` are tied with it on `(accuracy,
total_signals)` and come strictly earlier in the claim's enumeration order — under the
sequence-order reading (`claimKeyGen`) and the numeric reading (`claimKeyNum`) of "sell
ascending" respectively.  So the claimed tie-break ("buy ascending within sell
ascending within min_articles ascending") does not describe the selection: either
reading would have picked a different configuration. -/
theorem C1_sweep_selection_counterexample :
    ((selectOptimal (sweep_thresholds sweepTieTable)).map fun r =>
        (r.min_articles, r.buy_threshold, r.sell_threshold)) = some (1, 1 / 20, -1 / 10) ∧
      evaluate_thresholds sweepTieTable (1 / 10) (-1 / 20) 1 ∈
        viableOf (sweep_thresholds sweepTieTable) ∧
      resultKey (evaluate_thresholds sweepTieTable (1 / 10) (-1 / 20) 1) =
        resultKey (evaluate_thresholds sweepTieTable (1 / 20) (-1 / 10) 1) ∧
      claimKeyGen (evaluate_thresholds sweepTieTable (1 / 10) (-1 / 20) 1) <
        claimKeyGen (evaluate_thresholds sweepTieTable (1 / 20) (-1 / 10) 1) ∧
      evaluate_thresholds sweepTieTable (1 / 20) (-3 / 20) 1 ∈
        viableOf (sweep_thresholds sweepTieTable) ∧
      resultKey (evaluate_thresholds sweepTieTable (1 / 20) (-3 / 20) 1) =
        resultKey (evaluate_thresholds sweepTieTable (1 / 20) (-1 / 10) 1) ∧
      claimKeyNum (evaluate_thresholds sweepTieTable (1 / 20) (-3 / 20) 1) <
        claimKeyNum (evaluate_thresholds sweepTieTable (1 / 20) (-1 / 10) 1) := by
  with_unfolding_all decide

/-! ## Claims C5, C6, C10: the signal aggregator -/

theorem aggStep_weighted_sum (s : AggState) (a : SArticle) :
    (aggStep s a).weighted_sum =
      if survives a then
        s.weighted_sum + sentimentScore (a.sentiment.getD "neutral") * a.confidence.getD (1 / 2)
      else s.weighted_sum := by
  by_cases h : sentimentScore (a.sentiment.getD "neutral") = 0 ∧
      a.confidence.getD (1 / 2) < 7 / 10
  · simp only [aggStep]
    rw [if_pos h, if_neg (show ¬ survives a from fun hs => hs h)]
  · simp only [aggStep]
    rw [if_neg h, if_pos (show survives a from h)]
    split_ifs <;> rfl

theorem aggStep_weight_total (s : AggState) (a : SArticle) :
    (aggStep s a).weight_total =
      if survives a then s.weight_total + a.confidence.getD (1 / 2)
      else s.weight_total := by
  by_cases h : sentimentScore (a.sentiment.getD "neutral") = 0 ∧
      a.confidence.getD (1 / 2) < 7 / 10
  · simp only [aggStep]
    rw [if_pos h, if_neg (show ¬ survives a from fun hs => hs h)]
  · simp only [aggStep]
    rw [if_neg h, if_pos (show survives a from h)]
    split_ifs <;> rfl

/-- The loop's running sums equal the sums over the articles surviving the dilution
filter. -/
theorem foldl_aggStep_sums (arts : List SArticle) (s : AggState) :
    ((arts.foldl aggStep s).weighted_sum = s.weighted_sum +
        ((arts.filter fun a => decide (survives a)).map fun a =>
          sentimentScore (a.sentiment.getD "neutral") * a.confidence.getD (1 / 2)).sum) ∧
      ((arts.foldl aggStep s).weight_total = s.weight_total +
        ((arts.filter fun a => decide (survives a)).map fun a =>
          a.confidence.getD (1 / 2)).sum) := by
  induction arts generalizing s with
  | nil => simp
  | cons a as ih =>
    rw [List.foldl_cons]
    obtain ⟨ih1, ih2⟩ := ih (aggStep s a)
    by_cases h : survives a
    · constructor
      · rw [ih1, aggStep_weighted_sum, if_pos h]
        simp [List.filter_cons, h]
        ring
      · rw [ih2, aggStep_weight_total, if_pos h]
        simp [List.filter_cons, h]
        ring
    · constructor
      · rw [ih1, aggStep_weighted_sum, if_neg h]
        simp [List.filter_cons, h]
      · rw [ih2, aggStep_weight_total, if_neg h]
        simp [List.filter_cons, h]

theorem tickerSignal_empty (cfg : SigConfig) (articles : List SArticle) (t : String)
    (h : (articles.filter fun a => a.ticker == t) = []) :
    tickerSignal cfg articles t = emptySignal cfg t := by
  simp only [tickerSignal]
  rw [h]
  simp

theorem tickerSignal_count (cfg : SigConfig) (articles : List SArticle) (t : String)
    (h : (articles.filter fun a => a.ticker == t) ≠ []) :
    (tickerSignal cfg articles t).article_count =
      (articles.filter fun a => a.ticker == t).length := by
  have hlen : ¬((articles.filter fun a => a.ticker == t).length = 0) := by
    simpa [List.length_eq_zero] using h
  simp only [tickerSignal]
  rw [if_neg hlen]

theorem tickerSignal_score (cfg : SigConfig) (articles : List SArticle) (t : String)
    (h : (articles.filter fun a => a.ticker == t) ≠ []) :
    (tickerSignal cfg articles t).score =
      roundTo 3 (aggScore (articles.filter fun a => a.ticker == t)) := by
  have hlen : ¬((articles.filter fun a => a.ticker == t).length = 0) := by
    simpa [List.length_eq_zero] using h
  simp only [tickerSignal]
  rw [if_neg hlen]
  rfl

theorem tickerSignal_signal_eq (cfg : SigConfig) (articles : List SArticle) (t : String)
    (h : (articles.filter fun a => a.ticker == t) ≠ []) :
    (tickerSignal cfg articles t).signal =
      if cfg.BUY_THRESHOLD < aggScore (articles.filter fun a => a.ticker == t) ∧
          cfg.MIN_ARTICLES ≤ (articles.filter fun a => a.ticker == t).length then "BUY"
      else if aggScore (articles.filter fun a => a.ticker == t) < cfg.SELL_THRESHOLD ∧
          cfg.MIN_ARTICLES ≤ (articles.filter fun a => a.ticker == t).length then "SELL"
      else "HOLD" := by
  have hlen : ¬((articles.filter fun a => a.ticker == t).length = 0) := by
    simpa [List.length_eq_zero] using h
  simp only [tickerSignal]
  rw [if_neg hlen]
  rfl

theorem lookup_map_self {β : Type} (f : String → β) (l : List String) (t : String)
    (h : t ∈ l) : (l.map fun x => (x, f x)).lookup t = some (f t) := by
  induction l with
  | nil => simp at h
  | cons x xs ih =>
    rcases List.mem_cons.1 h with rfl | hmem
    · simp [List.lookup_cons]
    · by_cases hx : t = x
      · subst hx
        simp [List.lookup_cons]
      · simp [List.lookup_cons, beq_false_of_ne hx, ih hmem]

theorem lookup_map_none {β : Type} (f : String → β) (l : List String) (t : String)
    (h : t ∉ l) : (l.map fun x => (x, f x)).lookup t = none := by
  induction l with
  | nil => simp
  | cons x xs ih =>
    have hx : t ≠ x := fun he => h (he ▸ List.mem_cons_self x xs)
    have hmem : t ∉ xs := fun hm => h (List.mem_cons.2 (Or.inr hm))
    simp [List.lookup_cons, beq_false_of_ne hx, ih hmem]

/-- **C5.** Every article with polarity `0.0` and confidence below `0.7` is excluded
from both the weighted sum and the weight total but still counted in `article_count`
(the aggregated score is the weighted average over the surviving articles only); in
particular, an asset whose only article is `{sentiment: neutral, confidence: 0.4}`
yields score `0.0`, signal `HOLD`, and `article_count` `1`. -/
theorem C5_dilution_filter :
    (∀ (cfg : SigConfig) (articles : List SArticle) (t : String),
      (articles.filter fun a => a.ticker == t) ≠ [] →
        (tickerSignal cfg articles t).article_count =
            (articles.filter fun a => a.ticker == t).length ∧
          (tickerSignal cfg articles t).score =
            roundTo 3 (aggScore (articles.filter fun a => a.ticker == t)) ∧
          aggScore (articles.filter fun a => a.ticker == t) =
            (if 0 < (((articles.filter fun a => a.ticker == t).filter fun a =>
                  decide (survives a)).map fun a => a.confidence.getD (1 / 2)).sum then
              ((((articles.filter fun a => a.ticker == t).filter fun a =>
                  decide (survives a)).map fun a =>
                  sentimentScore (a.sentiment.getD "neutral") *
                    a.confidence.getD (1 / 2)).sum) /
                (((articles.filter fun a => a.ticker == t).filter fun a =>
                  decide (survives a)).map fun a => a.confidence.getD (1 / 2)).sum
            else 0)) ∧
      (generate_signals defaultSigConfig
          [⟨"AAPL", "news", some "neutral", some (4 / 10)⟩]).lookup "AAPL" =
        some { signal := "HOLD", score := 0, confidence := 0, article_count := 1,
               top_headline := "", display_name := "AAPL" } := by
  constructor
  · intro cfg articles t hne
    refine ⟨tickerSignal_count cfg articles t hne, tickerSignal_score cfg articles t hne, ?_⟩
    have hsum := foldl_aggStep_sums (articles.filter fun a => a.ticker == t) {}
    simp only [aggScore]
    rw [hsum.1, hsum.2]
    simp
  · with_unfolding_all decide

theorem C5_dilution_filter_witness :
    (tickerSignal defaultSigConfig [⟨"AAPL", "news", some "neutral", some (4 / 10)⟩]
        "AAPL").article_count =
      ([(⟨"AAPL", "news", some "neutral", some (4 / 10)⟩ : SArticle)].filter fun a =>
        a.ticker == "AAPL").length ∧
    ([(⟨"AAPL", "news", some "neutral", some (4 / 10)⟩ : SArticle)].filter fun a =>
        a.ticker == "AAPL").length = 1 :=
  ⟨(C5_dilution_filter.1 defaultSigConfig [⟨"AAPL", "news", some "neutral", some (4 / 10)⟩]
      "AAPL" (by with_unfolding_all decide)).1,
    by with_unfolding_all decide⟩

/-- A configuration violating the well-formedness invariant
`sell_threshold < buy_threshold` (here `BUY = -0.5 > SELL` is false: `SELL = 0.2`). -/
def overlapConfig : SigConfig :=
  { ALL_TICKERS := ["AAPL"]
    BUY_THRESHOLD := -(1 / 2)
    SELL_THRESHOLD := 1 / 5
    MIN_ARTICLES := 1
    displayNames := [] }

/-- A high-confidence neutral article: it survives the dilution filter and scores `0`,
which lies in the overlap `(-0.5, 0.2)` of `overlapConfig`. -/
def overlapArticle : SArticle := ⟨"AAPL", "headline", some "neutral", some (8 / 10)⟩

/-- **C6, counterexample.** With the invariant-violating `overlapConfig`
(`SELL_THRESHOLD = 0.2 ≥ BUY_THRESHOLD = -0.5`) and a single surviving article whose
weighted score `0` lies strictly inside the overlap, the Signal Aggregator assigns
`BUY`, not `HOLD`: the claim that overlap scores are "always assigned HOLD" is false. -/
theorem C6_overlap_counterexample :
    ¬(overlapConfig.SELL_THRESHOLD < overlapConfig.BUY_THRESHOLD) ∧
      overlapConfig.BUY_THRESHOLD <
        aggScore ([overlapArticle].filter fun a => a.ticker == "AAPL") ∧
      aggScore ([overlapArticle].filter fun a => a.ticker == "AAPL") <
        overlapConfig.SELL_THRESHOLD ∧
      (tickerSignal overlapConfig [overlapArticle] "AAPL").signal = "BUY" ∧
      (tickerSignal overlapConfig [overlapArticle] "AAPL").signal ≠ "HOLD" := by
  with_unfolding_all decide

/-- **C6 (amended).** If a `SigConfig` violates `sell_threshold < buy_threshold`, then
an asset whose weighted score falls in the overlap (greater than `buy_threshold` and
less than `sell_threshold`) is assigned `BUY` whenever its `article_count` reaches
`min_articles`, and `HOLD` only when it does not — because the BUY branch of the
`elif` chain is evaluated first. -/
theorem C6_overlap_goes_buy (cfg : SigConfig) (articles : List SArticle) (t : String)
    (hviol : ¬(cfg.SELL_THRESHOLD < cfg.BUY_THRESHOLD))
    (hne : (articles.filter fun a => a.ticker == t) ≠ [])
    (hb : cfg.BUY_THRESHOLD < aggScore (articles.filter fun a => a.ticker == t))
    (hs : aggScore (articles.filter fun a => a.ticker == t) < cfg.SELL_THRESHOLD) :
    (tickerSignal cfg articles t).signal =
      if cfg.MIN_ARTICLES ≤ (articles.filter fun a => a.ticker == t).length then "BUY"
      else "HOLD" := by
  rw [tickerSignal_signal_eq cfg articles t hne]
  by_cases hm : cfg.MIN_ARTICLES ≤ (articles.filter fun a => a.ticker == t).length
  · rw [if_pos ⟨hb, hm⟩, if_pos hm]
  · rw [if_neg fun hc => hm hc.2, if_neg fun hc => hm hc.2, if_neg hm]

theorem C6_overlap_goes_buy_witness :
    (tickerSignal overlapConfig [overlapArticle] "AAPL").signal =
      if overlapConfig.MIN_ARTICLES ≤
          ([overlapArticle].filter fun a => a.ticker == "AAPL").length then "BUY"
      else "HOLD" :=
  C6_overlap_goes_buy overlapConfig [overlapArticle] "AAPL"
    (by with_unfolding_all decide) (by with_unfolding_all decide)
    (by with_unfolding_all decide) (by with_unfolding_all decide)

/-- **C10.** The Signal Aggregator's result is keyed by exactly the configured
watchlist: the output keys are `ALL_TICKERS` in order, tickers outside the watchlist
have no entry, a watchlist ticker with no articles gets the fixed zero-article HOLD
placeholder, and articles whose ticker is not in the watchlist are silently ignored
(appending them changes nothing). -/
theorem C10_watchlist_keys (cfg : SigConfig) (articles : List SArticle) :
    ((generate_signals cfg articles).map Prod.fst = cfg.ALL_TICKERS) ∧
      (∀ t, t ∉ cfg.ALL_TICKERS → (generate_signals cfg articles).lookup t = none) ∧
      (∀ t ∈ cfg.ALL_TICKERS, (articles.filter fun a => a.ticker == t) = [] →
        (generate_signals cfg articles).lookup t = some (emptySignal cfg t)) ∧
      (∀ extra : List SArticle, (∀ a ∈ extra, a.ticker ∉ cfg.ALL_TICKERS) →
        generate_signals cfg (articles ++ extra) = generate_signals cfg articles) := by
  refine ⟨?_, ?_, ?_, ?_⟩
  · simp [generate_signals, List.map_map, Function.comp_def]
  · intro t ht
    exact lookup_map_none _ _ _ ht
  · intro t ht hfil
    have hgen : generate_signals cfg articles =
        cfg.ALL_TICKERS.map fun x => (x, tickerSignal cfg articles x) := rfl
    rw [hgen, lookup_map_self (fun x => tickerSignal cfg articles x) _ _ ht,
      tickerSignal_empty cfg articles t hfil]
  · intro extra hextra
    unfold generate_signals
    apply List.map_congr_left
    intro t ht
    have hfe : (extra.filter fun a => a.ticker == t) = [] := by
      apply List.filter_eq_nil_iff.2
      intro a ha hbe
      have hat : a.ticker = t := eq_of_beq hbe
      exact hextra a ha (hat.symm ▸ ht)
    have hfil : ((articles ++ extra).filter fun a => a.ticker == t) =
        articles.filter fun a => a.ticker == t := by
      rw [List.filter_append, hfe, List.append_nil]
    have hts : tickerSignal cfg (articles ++ extra) t = tickerSignal cfg articles t := by
      simp only [tickerSignal]
      rw [hfil]
    rw [hts]

theorem C10_watchlist_keys_witness :
    (generate_signals defaultSigConfig []).lookup "ZZZZ" = none :=
  (C10_watchlist_keys defaultSigConfig []).2.1 "ZZZZ" (by with_unfolding_all decide)

/-! ## Claim C3: the price-change resolver -/

theorem sortStringsAsc_pairwise_lt (l : List String) (h : l.Nodup) :
    (sortStringsAsc l).Pairwise (· < ·) := by
  have hs : (sortStringsAsc l).Pairwise (· ≤ ·) := List.sorted_insertionSort (· ≤ ·) l
  have hn : (sortStringsAsc l).Nodup := ((List.perm_insertionSort (· ≤ ·) l).nodup_iff).2 h
  exact (hs.and hn).imp fun hab => lt_of_le_of_ne hab.1 hab.2

/-- In a strictly sorted list, the first element on or after `x` is `x` itself whenever
`x` occurs in the list. -/
theorem head_filter_ge_of_mem {l : List String} (hpw : l.Pairwise (· < ·)) {x : String}
    (hx : x ∈ l) : (l.filter fun d => decide (x ≤ d)).head? = some x := by
  induction l with
  | nil => simp at hx
  | cons y ys ih =>
    rcases List.mem_cons.1 hx with rfl | hx'
    · rw [List.filter_cons]
      simp
    · have hyx : y < x := (List.pairwise_cons.1 hpw).1 x hx'
      rw [List.filter_cons]
      have hb : (decide (x ≤ y)) = false := decide_eq_false (not_le.2 hyx)
      rw [hb]
      simp only [Bool.false_eq_true, if_false]
      exact ih (List.pairwise_cons.1 hpw).2 hx'

/-- In a strictly sorted list, the elements strictly after `x` are exactly the suffix
past `x`'s index. -/
theorem filter_gt_eq_drop {l : List String} (hpw : l.Pairwise (· < ·)) {x : String}
    (hx : x ∈ l) : (l.filter fun d => decide (x < d)) = l.drop (l.indexOf x + 1) := by
  induction l with
  | nil => simp at hx
  | cons y ys ih =>
    rcases List.mem_cons.1 hx with rfl | hx'
    · rw [List.indexOf_cons]
      simp only [beq_self_eq_true, cond_true]
      rw [List.filter_cons]
      have h1 : (decide (x < x)) = false := decide_eq_false (lt_irrefl x)
      rw [h1]
      simp only [Bool.false_eq_true, if_false]
      have h2 : ys.filter (fun d => decide (x < d)) = ys :=
        List.filter_eq_self.2 fun a ha =>
          decide_eq_true ((List.pairwise_cons.1 hpw).1 a ha)
      rw [h2, List.drop_succ_cons]
      rfl
    · have hyx : y < x := (List.pairwise_cons.1 hpw).1 x hx'
      rw [List.indexOf_cons]
      have hbe : (y == x) = false := beq_false_of_ne (ne_of_lt hyx)
      rw [hbe]
      simp only [cond_false]
      rw [List.filter_cons]
      have h2 : (decide (x < y)) = false := decide_eq_false (not_lt.2 (le_of_lt hyx))
      rw [h2]
      simp only [Bool.false_eq_true, if_false]
      rw [ih (List.pairwise_cons.1 hpw).2 hx', List.drop_succ_cons]

/-- After snapping to a known date `d`, the code's index arithmetic computes exactly
what the spec describes: the forward return to the earliest known date strictly after
`d`, unresolvable when `d` is the last known date or priced `0`. -/
theorem post_snap_eq (prices : List (String × ℚ)) (d : String)
    (hpw : (sortStringsAsc (prices.map Prod.fst)).Pairwise (· < ·))
    (hmem : d ∈ sortStringsAsc (prices.map Prod.fst)) :
    (if (sortStringsAsc (prices.map Prod.fst)).length ≤
        (sortStringsAsc (prices.map Prod.fst)).indexOf d + 1 then (none : Option ℚ)
     else
       if ((prices.lookup ((sortStringsAsc (prices.map Prod.fst)).getD
           ((sortStringsAsc (prices.map Prod.fst)).indexOf d) "")).getD 0) = 0 then none
       else some ((((prices.lookup ((sortStringsAsc (prices.map Prod.fst)).getD
           ((sortStringsAsc (prices.map Prod.fst)).indexOf d + 1) "")).getD 0) -
           ((prices.lookup ((sortStringsAsc (prices.map Prod.fst)).getD
           ((sortStringsAsc (prices.map Prod.fst)).indexOf d) "")).getD 0)) /
           ((prices.lookup ((sortStringsAsc (prices.map Prod.fst)).getD
           ((sortStringsAsc (prices.map Prod.fst)).indexOf d) "")).getD 0) * 100)) =
    (match ((sortStringsAsc (prices.map Prod.fst)).filter fun x =>
        decide (d < x)).head? with
     | none => (none : Option ℚ)
     | some nxt =>
       if ((prices.lookup d).getD 0) = 0 then none
       else some ((((prices.lookup nxt).getD 0) - ((prices.lookup d).getD 0)) /
         ((prices.lookup d).getD 0) * 100)) := by
  have hidx : (sortStringsAsc (prices.map Prod.fst)).indexOf d <
      (sortStringsAsc (prices.map Prod.fst)).length := List.indexOf_lt_length.2 hmem
  have hgetd : (sortStringsAsc (prices.map Prod.fst)).getD
      ((sortStringsAsc (prices.map Prod.fst)).indexOf d) "" = d := by
    rw [List.getD_eq_getElem?_getD, List.getElem?_eq_getElem hidx]
    simp [List.getElem_indexOf]
  rw [filter_gt_eq_drop hpw hmem, hgetd, List.head?_drop]
  by_cases hlen : (sortStringsAsc (prices.map Prod.fst)).length ≤
      (sortStringsAsc (prices.map Prod.fst)).indexOf d + 1
  · rw [if_pos hlen, List.getElem?_eq_none hlen]
  · rw [if_neg hlen]
    have hlt : (sortStringsAsc (prices.map Prod.fst)).indexOf d + 1 <
        (sortStringsAsc (prices.map Prod.fst)).length := by omega
    rw [List.getElem?_eq_getElem hlt]
    have hgetd2 : (sortStringsAsc (prices.map Prod.fst)).getD
        ((sortStringsAsc (prices.map Prod.fst)).indexOf d + 1) "" =
        (sortStringsAsc (prices.map Prod.fst))[
          (sortStringsAsc (prices.map Prod.fst)).indexOf d + 1] := by
      rw [List.getD_eq_getElem?_getD, List.getElem?_eq_getElem hlt]
      rfl
    rw [hgetd2]

/-- The resolver agrees with the spec's algorithm on every price dict (distinct keys,
as Python dict keys are) and reference date. -/
theorem compute_next_day_change_eq_spec (prices : List (String × ℚ))
    (hnd : (prices.map Prod.fst).Nodup) (date_str : String) :
    compute_next_day_change prices date_str = specNextDayChange prices date_str := by
  have hpw : (sortStringsAsc (prices.map Prod.fst)).Pairwise (· < ·) :=
    sortStringsAsc_pairwise_lt _ hnd
  simp only [compute_next_day_change, specNextDayChange]
  by_cases hmem : date_str ∈ sortStringsAsc (prices.map Prod.fst)
  · rw [if_pos hmem, head_filter_ge_of_mem hpw hmem]
    exact post_snap_eq prices date_str hpw hmem
  · rw [if_neg hmem]
    cases hh : ((sortStringsAsc (prices.map Prod.fst)).filter fun d =>
        decide (date_str ≤ d)).head? with
    | none => rfl
    | some d =>
      have hdmem : d ∈ sortStringsAsc (prices.map Prod.fst) := by
        have hdf : d ∈ (sortStringsAsc (prices.map Prod.fst)).filter fun d =>
            decide (date_str ≤ d) := by
          cases hfl : (sortStringsAsc (prices.map Prod.fst)).filter fun d =>
              decide (date_str ≤ d) with
          | nil =>
            rw [hfl] at hh
            simp at hh
          | cons z zs =>
            rw [hfl] at hh
            have hz : z = d := by simpa using hh
            subst hz
            simp
        exact List.mem_of_mem_filter hdf
      exact post_snap_eq prices d hpw hdmem

/-- **C3.** For every date-to-price mapping (with the distinct keys of a Python dict)
and reference date, `compute_next_day_change` implements exactly the spec's algorithm:
sort the known dates ascending, snap a missing reference date forward to the earliest
known date on or after it (unresolvable if none exists), return unresolvable if that
date is the last known date or its price is `0`, and otherwise return
`(price[next] - price[current]) / price[current] * 100`; in particular, for the series
`{"2024-01-02": 100, "2024-01-03": 102}`, resolving `"2024-01-02"` yields exactly
`2.0`. -/
theorem C3_price_resolver (prices : List (String × ℚ))
    (hnd : (prices.map Prod.fst).Nodup) (date_str : String) :
    compute_next_day_change prices date_str = specNextDayChange prices date_str ∧
      compute_next_day_change [("2024-01-02", 100), ("2024-01-03", 102)] "2024-01-02" =
        some 2 :=
  ⟨compute_next_day_change_eq_spec prices hnd date_str, by with_unfolding_all decide⟩

theorem C3_price_resolver_witness :
    compute_next_day_change [("2024-01-02", 100), ("2024-01-03", 102)] "2024-01-02" =
        specNextDayChange [("2024-01-02", 100), ("2024-01-03", 102)] "2024-01-02" ∧
      specNextDayChange [("2024-01-02", 100), ("2024-01-03", 102)] "2024-01-02" =
        some 2 :=
  ⟨(C3_price_resolver [("2024-01-02", 100), ("2024-01-03", 102)]
      (by with_unfolding_all decide) "2024-01-02").1,
    by with_unfolding_all decide⟩
